import Mathlib

/-!
Verification development for the hybrid retrieval / streaming chat core of the
adal_4naga Flask application (files `app/rag_service.py` and `app/routes.py`).

The Python functions are shallowly embedded as executable Lean definitions:
strings stay `String`, floats become `ℚ`, Python dictionaries keyed by document
text become association lists that preserve insertion order, generators become
explicit lists of emitted records, and wall-clock time becomes an explicit
arrival timestamp attached to every streamed chunk.  Collaborator calls
(Qdrant, BM25 index, Supabase, the LLM) are inputs of the embedded functions.
-/

namespace Adal

/-! ## String helpers (Python `in` and `str.lower`) -/

/-- `leadMatch needle hay` is true when `needle` is an initial segment of `hay`
(character-wise).  Helper for the Python substring test. -/
def leadMatch : List Char → List Char → Bool
  | [], _ => true
  | _ :: _, [] => false
  | a :: as, b :: bs => a == b && leadMatch as bs

/-- `hasSub needle hay` is the Python membership test `needle in hay` on
character lists: `needle` occurs contiguously somewhere in `hay`. -/
def hasSub : List Char → List Char → Bool
  | n, [] => leadMatch n []
  | n, c :: rest' => leadMatch n (c :: rest') || hasSub n rest'

/-- Python `needle in hay` for strings. -/
def pyContains (hay needle : String) : Bool :=
  hasSub needle.data hay.data

/-- Python `s.lower()` (ASCII case folding, which is all the source's trigger
phrases need). -/
def pyLower (s : String) : String := ⟨s.data.map Char.toLower⟩

/-! ## Content moderation (`rag_service.DISALLOWED`, `is_allowed`) -/

/-- `DISALLOWED` tuple from `rag_service.py`. -/
def DISALLOWED : List String :=
  ["how to make a bomb", "explosive materials", "hatred", "self-harm"]

/-- `is_allowed(question)` from `rag_service.py`: no disallowed term occurs in
the lowercased question. -/
def is_allowed (question : String) : Bool :=
  ! DISALLOWED.any (fun term => pyContains (pyLower question) term)

/-! ## Intent classifier (`rag_service.is_exhaustive_query`) -/

/-- `exhaustive_keywords` list from `rag_service.py`, in source order. -/
def exhaustive_keywords : List String :=
  ["all", "list", "every", "give me all", "show me all",
   "how many", "what are all", "enumerate", "complete list"]

/-- `is_exhaustive_query(query)` from `rag_service.py`. -/
def is_exhaustive_query (query : String) : Bool :=
  exhaustive_keywords.any (fun keyword => pyContains (pyLower query) keyword)

/-! ## Retrieval data model

A retriever hit is a LangChain `Document` whose `page_content` is `text` and
whose metadata carries the raw retriever score under key `'score'` and, after
`normalize_scores`, the key `'normalized_score'`.  Scores are rationals
(shallow embedding of Python floats). -/

structure ScoredDoc where
  text : String
  score : ℚ
  normalized_score : ℚ := 0
deriving DecidableEq

/-- Python `max(scores)` for a score list (`0` on the empty list, which the
source never reaches because it guards on emptiness first). -/
def listMax : List ℚ → ℚ
  | [] => 0
  | s :: rest => rest.foldl max s

/-- Python `min(scores)` for a score list. -/
def listMin : List ℚ → ℚ
  | [] => 0
  | s :: rest => rest.foldl min s

/-- `normalize_scores(results)` — the inner function of
`rag_service.hybrid_search`: min–max scaling of the raw `'score'` values into
`'normalized_score'`; if all raw scores coincide every normalized score is
`1.0`; the empty list is returned unchanged. -/
def normalize_scores (results : List ScoredDoc) : List ScoredDoc :=
  match results with
  | [] => []
  | _ :: _ =>
    let scores := results.map (·.score)
    let max_score := listMax scores
    let min_score := listMin scores
    let score_range := max_score - min_score
    if score_range > 0 then
      results.map (fun r => { r with normalized_score := (r.score - min_score) / score_range })
    else
      results.map (fun r => { r with normalized_score := 1 })

/-- One value of the `combined` dict in `rag_service.hybrid_search`:
the stored document object plus the three fusion scores. -/
structure FEntry where
  doc : ScoredDoc
  hybrid_score : ℚ
  semantic_score : ℚ
  bm25_score : ℚ
deriving DecidableEq

/-- `combined[text] = {...}` for a semantic result: Python dict assignment —
replace in place when the key (the document text) is present, append
otherwise. -/
def addSemanticResult (semantic_weight : ℚ) (acc : List FEntry) (r : ScoredDoc) :
    List FEntry :=
  let e : FEntry := ⟨r, r.normalized_score * semantic_weight, r.normalized_score, 0⟩
  if acc.any (fun x => x.doc.text == r.text) then
    acc.map (fun x => if x.doc.text == r.text then e else x)
  else
    acc ++ [e]

/-- The BM25 loop body of `rag_service.hybrid_search`: when the text is
already present, overwrite `bm25_score` and add the weighted BM25 score onto
`hybrid_score`; otherwise append a BM25-only entry. -/
def addBm25Result (bm25_weight : ℚ) (acc : List FEntry) (r : ScoredDoc) :
    List FEntry :=
  if acc.any (fun x => x.doc.text == r.text) then
    acc.map (fun x =>
      if x.doc.text == r.text then
        { x with bm25_score := r.normalized_score,
                 hybrid_score := x.hybrid_score + r.normalized_score * bm25_weight }
      else x)
  else
    acc ++ [⟨r, r.normalized_score * bm25_weight, 0, r.normalized_score⟩]

/-- A document returned by `hybrid_search`: the stored document with the fusion
scores written into its metadata. -/
structure HDoc where
  text : String
  score : ℚ
  normalized_score : ℚ
  hybrid_score : ℚ
  semantic_score : ℚ
  bm25_score : ℚ
deriving DecidableEq

/-- `rag_service.hybrid_search` given the two retriever result lists (the
Qdrant and BM25 calls are external collaborators; `semantic_results` and
`bm25_results` are their returned hits with raw scores).  Normalizes each list
independently, merges by document text into the insertion-ordered `combined`
dict, sorts by descending hybrid score (Python `sorted` is stable) and keeps
the top `top_k`. -/
def hybrid_search (semantic_results bm25_results : List ScoredDoc) (top_k : Nat)
    (semantic_weight bm25_weight : ℚ) : List HDoc :=
  let sN := normalize_scores semantic_results
  let bN := normalize_scores bm25_results
  let combined := bN.foldl (addBm25Result bm25_weight)
    (sN.foldl (addSemanticResult semantic_weight) [])
  let sorted_results :=
    (combined.insertionSort (fun a b => b.hybrid_score ≤ a.hybrid_score)).take top_k
  sorted_results.map (fun e =>
    { text := e.doc.text, score := e.doc.score,
      normalized_score := e.doc.normalized_score,
      hybrid_score := e.hybrid_score, semantic_score := e.semantic_score,
      bm25_score := e.bm25_score })

/-- The adaptive threshold of `rag_service.smart_retrieve`:
`min(best_score * 1.5, 2.0)` where `best_score` is `docs[0].metadata['score']`
(the raw score stored on the top fused document). -/
def smart_threshold (docs : List HDoc) : ℚ :=
  match docs.head? with
  | none => 0
  | some d => min (d.score * (3/2)) 2

/-- `rag_service.smart_retrieve` given the retriever outputs: exhaustive
queries use breadth 50 and filter by the adaptive raw-score threshold;
specific queries use plain hybrid search with breadth 6. -/
def smart_retrieve (query : String) (semantic_results bm25_results : List ScoredDoc) :
    List HDoc :=
  if is_exhaustive_query query then
    let docs := hybrid_search semantic_results bm25_results 50 (7/10) (3/10)
    match docs with
    | [] => []
    | d :: _ =>
      let best_score := d.score
      let threshold := min (best_score * (3/2)) 2
      docs.filter (fun doc => doc.score ≤ threshold)
  else
    hybrid_search semantic_results bm25_results 6 (7/10) (3/10)

/-! ## Context formatter (`rag_service.format_docs`)

A document reaching the formatter carries its text plus the metadata keys the
formatter reads (`meta.get(key, default)` is embedded as a field with that
default — an absent key and the default value are indistinguishable to the
source code). -/

structure FDoc where
  text : String
  source : String := "document"
  page : String := ""
  content_type : String := ""
  chapter : String := ""
  url : String := ""
deriving DecidableEq

/-- `meta.get("source","document").replace("\\","/").split("/")[-1]`. -/
def lastPathComponent (s : String) : String :=
  ((s.replace "\\" "/").splitOn "/").getLastD ""

/-- Python `src.rsplit('.', 1)[0]`: everything before the last dot (the whole
string when there is no dot). -/
def dropLastExt (s : String) : String :=
  match s.splitOn "." with
  | [] => s
  | [_] => s
  | parts => String.intercalate "." parts.dropLast

/-- Title derivation of `format_docs`: strip the extension, then substitute
`Ordno-` and the separators. -/
def docTitle (src : String) : String :=
  if src != "document" then
    (((dropLastExt src).replace "Ordno-" "Ordinance No. ").replace "-" " ").replace "_" " "
  else
    "Document"

/-- The per-document body of both loops in `format_docs` (the two loop bodies
in the source are identical and ignore the enumeration index): text plus a
citation label, hyperlinked when a URL is present. -/
def renderDoc (d : FDoc) : String :=
  let src := lastPathComponent d.source
  let title := docTitle src
  let label_parts := [title]
    ++ (if d.page != "" then ["p." ++ d.page] else [])
    ++ (if d.content_type != "" then ["(" ++ d.content_type ++ ")"] else [])
    ++ (if d.chapter != "" then ["Ch." ++ d.chapter] else [])
  let label := String.intercalate " " label_parts
  let label :=
    if d.url != "" then
      "<a href=\"" ++ d.url ++ "\" target=\"_blank\">" ++ label ++ "</a>"
    else
      "[" ++ label ++ "]"
  d.text ++ "\n" ++ label

/-- The separation pass of `format_docs`: one sweep that sends documents with
`content_type == "abstract"` to the first list and everything else to the
second, both in input order. -/
def splitByAbstract : List FDoc → List FDoc × List FDoc
  | [] => ([], [])
  | d :: rest =>
    let (a, o) := splitByAbstract rest
    if d.content_type == "abstract" then (d :: a, o) else (a, d :: o)

/-- `rag_service.format_docs`: abstracts first, then the other documents, each
rendered with its citation label and joined by blank lines. -/
def format_docs (docs : List FDoc) : String :=
  let (abstract_docs, other_docs) := splitByAbstract docs
  String.intercalate "\n\n" (abstract_docs.map renderDoc ++ other_docs.map renderDoc)

/-! ## Streaming answer driver (`routes.chat_api` / the `generate` closure)

The LLM's chunk stream is embedded as a list of `(text, arrival time)` pairs;
`time.time()` readings become the arrival timestamps.  `GenState` is the
request-scoped mutable state of the `generate` closure. -/

structure GenState where
  bot_response : String
  chunk_count : Nat
  stream_error : Option String
  last_chunk_time : ℚ
  yielded : List String
deriving DecidableEq

/-- The state of `generate` right before the streaming `for` loop:
`bot_response = ""`, `chunk_count = 0`, `stream_error = None`,
`last_chunk_time = start_time`, nothing yielded yet. -/
def initState (start_time : ℚ) : GenState :=
  { bot_response := "", chunk_count := 0, stream_error := none,
    last_chunk_time := start_time, yielded := [] }

/-- The streaming `for` loop of `generate` in `routes.py`: skip falsy (empty)
chunks; append the chunk to `bot_response` and bump `chunk_count`; if the
counter exceeds `max_chunks` stop with `response_too_long`; if more than 30
seconds passed since the previous chunk stop with `stream_timeout`; otherwise
remember the arrival time and yield the token. -/
def streamLoop (max_chunks : Nat) : GenState → List (String × ℚ) → GenState
  | st, [] => st
  | st, (chunk, current_time) :: rest =>
    if chunk = "" then
      streamLoop max_chunks st rest
    else
      let st1 := { st with bot_response := st.bot_response ++ chunk,
                           chunk_count := st.chunk_count + 1 }
      if st1.chunk_count > max_chunks then
        { st1 with stream_error := some "response_too_long" }
      else if current_time - st.last_chunk_time > 30 then
        { st1 with stream_error := some "stream_timeout" }
      else
        streamLoop max_chunks
          { st1 with last_chunk_time := current_time,
                     yielded := st1.yielded ++ [chunk] } rest

/-! ## Wire records and the response generators of `routes.chat_api` -/

/-- One newline-delimited JSON record of the chat stream: the initial
`{chat_id}`, a `{token}` record, or the terminal `{done: true, ...}` record
(`error` is the `error`/`user_message` payload of the except-branch or of the
fallback; `warning` is the guard code attached to a normal completion). -/
inductive Rec where
  | chatId (id : String)
  | token (s : String)
  | done (error : Option String) (warning : Option String)
deriving DecidableEq

/-- A record is terminal when it carries `done: true` — both the normal
completion record and the error record do. -/
def isTerminalRec : Rec → Bool
  | .done _ _ => true
  | _ => false

/-- The user-facing message chosen in the except-branch of `generate` by
substring sniffing on the exception text. -/
def classify_error (error_msg : String) : String :=
  if pyContains (pyLower error_msg) "timeout" then
    "The request took too long. Please try a simpler question."
  else if pyContains (pyLower error_msg) "rate" || pyContains (pyLower error_msg) "quota" then
    "The service is currently busy. Please try again in a moment."
  else
    "An unexpected error occurred. Please try again."

/-- Result of one run of the `generate` closure: the emitted record sequence,
how many background persistence threads were started, and the final
accumulated `bot_response`. -/
structure GenOut where
  recs : List Rec
  sinkCalls : Nat
  bot_response : String
deriving DecidableEq

/-- The `generate` closure of `routes.chat_api`.  `retrieval` is the outcome of
`rag_service.hybrid_search` (`Except.error` when retrieval raised), `chunks`
are the fragments produced by `generate_response_streaming` with their arrival
times, and `gen_exn` is an exception raised by the generation call after the
listed chunks (if any).  The body mirrors the `try`/`except` of the source:
`chat_id` first; on an exception the terminal error record is emitted and the
persistence thread is started only when a partial answer exists; on a normal
or guard-tripped exit the completion record (with the guard code as `warning`)
is emitted and the persistence thread is always started. -/
def generate (chat_id : String) (retrieval : Except String (List HDoc))
    (chunks : List (String × ℚ)) (gen_exn : Option String) (start_time : ℚ) :
    GenOut :=
  match retrieval with
  | .error e =>
    { recs := [.chatId chat_id, .done (some (classify_error e)) none],
      sinkCalls := 0, bot_response := "" }
  | .ok _context =>
    let st := streamLoop 10000 (initState start_time) chunks
    match st.stream_error with
    | some w =>
      { recs := [.chatId chat_id] ++ st.yielded.map .token ++ [.done none (some w)],
        sinkCalls := 1, bot_response := st.bot_response }
    | none =>
      match gen_exn with
      | some e =>
        { recs := [.chatId chat_id] ++ st.yielded.map .token
            ++ [.done (some (classify_error e)) none],
          sinkCalls := if st.bot_response = "" then 0 else 1,
          bot_response := st.bot_response }
      | none =>
        { recs := [.chatId chat_id] ++ st.yielded.map .token ++ [.done none none],
          sinkCalls := 1, bot_response := st.bot_response }

/-- The apology text of the `generate_fallback` closure. -/
def fallbackText : String :=
  "I apologize, but the AI system is currently unavailable. Please try again later."

/-- The `generate_fallback` closure of `routes.chat_api`: `chat_id`, the
apology character by character, then `{done: true, error: system_unavailable}`.
It starts no persistence thread. -/
def generate_fallback (chat_id : String) : List Rec :=
  [.chatId chat_id]
    ++ fallbackText.data.map (fun c => .token (String.singleton c))
    ++ [.done (some "system_unavailable") none]

/-! ## Async persistence sink (`routes.save_messages_and_analytics_async`) -/

/-- Collaborator outcomes consumed by one run of the sink.  Modelled from the
spec: `auth_service` (absent from `src/`) exposes `save_chat_message`
returning a `(result, status)` pair without raising, and the Supabase
analytics insert may raise (which the inner `try` of the sink catches). -/
structure SinkEnv where
  userSaveStatus : Nat
  botSaveStatus : Nat
  analyticsInsert : Except String Unit

/-- Observable outcome of one sink run. -/
structure SinkLog where
  userSaveAttempted : Bool
  botSaveAttempted : Bool
  analyticsFailureCaught : Bool
  raised : Bool
deriving DecidableEq

/-- `save_messages_and_analytics_async` from `routes.py`: always saves the
user message, saves the bot response only when some text was accumulated, and
wraps the analytics insert in its own `try` so a failure there is logged and
swallowed; the whole body sits under an outer `try`/`except`, so nothing
propagates to the caller (`raised` is always `false`). -/
def save_messages_and_analytics_async (env : SinkEnv) (bot_response : String) :
    SinkLog :=
  let _userStatus := env.userSaveStatus
  let botAttempt : Bool := bot_response != ""
  let analyticsCaught : Bool :=
    match env.analyticsInsert with
    | .error _ => true
    | .ok _ => false
  { userSaveAttempted := true, botSaveAttempted := botAttempt,
    analyticsFailureCaught := analyticsCaught, raised := false }

/-! ## Endpoint models (`routes.chat_api`, `routes.search_documents`) -/

/-- A Flask response: a JSON reply with an HTTP status code, or a streaming
response. -/
inductive ApiResp where
  | json (code : Nat) (body : String)
  | stream (recs : List Rec)
deriving DecidableEq

/-- The moderation rejection body shared by both endpoints. -/
def moderationMsg : String := "Sorry, I can\x27t assist with that."

/-- `routes.chat_api` up to the choice of response generator.  Collaborator
behaviour is passed in: `user_id` from the session, `session_created` from
`auth_service.create_chat_session`, `rag_unavailable` models
`get_rag_service` raising `RuntimeError`, and the remaining arguments feed the
`generate` closure.  The moderation check runs before any of them are
consulted. -/
def chat_api (message : String) (chat_id : Option String) (user_id : Option String)
    (session_created : Except String String) (rag_unavailable : Bool)
    (retrieval : Except String (List HDoc)) (chunks : List (String × ℚ))
    (gen_exn : Option String) (start_time : ℚ) : ApiResp :=
  if ¬ is_allowed message then
    .json 400 moderationMsg
  else
    match user_id with
    | none => .json 401 "User not authenticated"
    | some _uid =>
      let cid? : Except String String :=
        match chat_id with
        | some cid => .ok cid
        | none => session_created
      match cid? with
      | .error _ => .json 500 "Failed to create chat session"
      | .ok cid =>
        if rag_unavailable then
          .stream (generate_fallback cid)
        else
          .stream (generate cid retrieval chunks gen_exn start_time).recs

/-- `routes.search_documents`: moderation check, then availability check, then
the hybrid search call whose failure is converted to a 500 reply. -/
def search_documents (query : String) (rag_unavailable : Bool)
    (search_result : Except String (List HDoc)) : ApiResp :=
  if ¬ is_allowed query then
    .json 400 moderationMsg
  else if rag_unavailable then
    .json 503 "Search system unavailable"
  else
    match search_result with
    | .error _ => .json 500 "Search failed"
    | .ok _results => .json 200 "results"

/-! ## Lemmas about `listMax` / `listMin` -/

theorem foldl_max_init_le (l : List ℚ) (a : ℚ) : a ≤ l.foldl max a := by
  induction l generalizing a with
  | nil => exact le_refl a
  | cons b t ih => exact le_trans (le_max_left a b) (ih (max a b))

theorem le_foldl_max (l : List ℚ) (a : ℚ) : ∀ x ∈ l, x ≤ l.foldl max a := by
  induction l generalizing a with
  | nil => intro x hx; cases hx
  | cons b t ih =>
    intro x hx
    rcases List.mem_cons.mp hx with h | h
    · subst h
      exact le_trans (le_max_right a x) (foldl_max_init_le t (max a x))
    · exact ih (max a b) x h

theorem foldl_max_mem (l : List ℚ) (a : ℚ) :
    l.foldl max a = a ∨ l.foldl max a ∈ l := by
  induction l generalizing a with
  | nil => exact Or.inl rfl
  | cons b t ih =>
    rcases ih (max a b) with h | h
    · rcases max_choice a b with hc | hc
      · exact Or.inl (by simpa [hc] using h)
      · exact Or.inr (by simp [List.foldl_cons]; left; rw [h, hc])
    · exact Or.inr (List.mem_cons_of_mem b h)

theorem foldl_min_le_init (l : List ℚ) (a : ℚ) : l.foldl min a ≤ a := by
  induction l generalizing a with
  | nil => exact le_refl a
  | cons b t ih => exact le_trans (ih (min a b)) (min_le_left a b)

theorem foldl_min_le (l : List ℚ) (a : ℚ) : ∀ x ∈ l, l.foldl min a ≤ x := by
  induction l generalizing a with
  | nil => intro x hx; cases hx
  | cons b t ih =>
    intro x hx
    rcases List.mem_cons.mp hx with h | h
    · subst h
      exact le_trans (foldl_min_le_init t (min a x)) (min_le_right a x)
    · exact ih (min a b) x h

theorem foldl_min_mem (l : List ℚ) (a : ℚ) :
    l.foldl min a = a ∨ l.foldl min a ∈ l := by
  induction l generalizing a with
  | nil => exact Or.inl rfl
  | cons b t ih =>
    rcases ih (min a b) with h | h
    · rcases min_choice a b with hc | hc
      · exact Or.inl (by simpa [hc] using h)
      · exact Or.inr (by simp [List.foldl_cons]; left; rw [h, hc])
    · exact Or.inr (List.mem_cons_of_mem b h)

theorem le_listMax (l : List ℚ) : ∀ x ∈ l, x ≤ listMax l := by
  intro x hx
  match l, hx with
  | s :: rest, hx =>
    rcases List.mem_cons.mp hx with h | h
    · subst h; exact foldl_max_init_le rest x
    · exact le_foldl_max rest s x h

theorem listMin_le (l : List ℚ) : ∀ x ∈ l, listMin l ≤ x := by
  intro x hx
  match l, hx with
  | s :: rest, hx =>
    rcases List.mem_cons.mp hx with h | h
    · subst h; exact foldl_min_le_init rest x
    · exact foldl_min_le rest s x h

theorem listMax_mem (l : List ℚ) (h : l ≠ []) : listMax l ∈ l := by
  match l, h with
  | s :: rest, _ =>
    rcases foldl_max_mem rest s with h1 | h1
    · simp [listMax, h1]
    · exact List.mem_cons_of_mem s (by simpa [listMax] using h1)

theorem listMin_mem (l : List ℚ) (h : l ≠ []) : listMin l ∈ l := by
  match l, h with
  | s :: rest, _ =>
    rcases foldl_min_mem rest s with h1 | h1
    · simp [listMin, h1]
    · exact List.mem_cons_of_mem s (by simpa [listMin] using h1)

/-! ## Lemmas about `normalize_scores` -/

theorem normalize_scores_nil : normalize_scores [] = [] := rfl

theorem normalize_scores_length (l : List ScoredDoc) :
    (normalize_scores l).length = l.length := by
  cases l with
  | nil => rfl
  | cons x t => simp only [normalize_scores]; split <;> simp

/-- Every output of the normalizer is one of the inputs with only the
`normalized_score` field rewritten. -/
theorem normalize_scores_shape (l : List ScoredDoc) :
    ∀ d ∈ normalize_scores l, ∃ r ∈ l, d.text = r.text ∧ d.score = r.score := by
  cases l with
  | nil => intro d hd; cases hd
  | cons x t =>
    intro d hd
    simp only [normalize_scores] at hd
    split at hd <;>
    · rcases List.mem_map.mp hd with ⟨r, hr, hfr⟩
      exact ⟨r, hr, by simp [← hfr]⟩

theorem normalize_scores_texts (l : List ScoredDoc) :
    (normalize_scores l).map (·.text) = l.map (·.text) := by
  cases l with
  | nil => rfl
  | cons x t => simp only [normalize_scores]; split <;> simp [List.map_map, Function.comp]

theorem normalize_scores_bounds (l : List ScoredDoc) :
    ∀ d ∈ normalize_scores l, 0 ≤ d.normalized_score ∧ d.normalized_score ≤ 1 := by
  cases l with
  | nil => intro d hd; cases hd
  | cons x t =>
    intro d hd
    simp only [normalize_scores] at hd
    split at hd
    case isTrue hrange =>
      rcases List.mem_map.mp hd with ⟨r, hr, hfr⟩
      have hsc : r.score ∈ (x :: t).map (·.score) := List.mem_map.mpr ⟨r, hr, rfl⟩
      have hle : r.score ≤ listMax ((x :: t).map (·.score)) := le_listMax _ _ hsc
      have hge : listMin ((x :: t).map (·.score)) ≤ r.score := listMin_le _ _ hsc
      constructor
      · rw [← hfr]
        exact div_nonneg (sub_nonneg.mpr hge) (le_of_lt hrange)
      · rw [← hfr]
        exact (div_le_one hrange).mpr (by linarith)
    case isFalse hrange =>
      rcases List.mem_map.mp hd with ⟨r, hr, hfr⟩
      rw [← hfr]
      norm_num

theorem normalize_scores_all_eq (l : List ScoredDoc) (hne : l ≠ [])
    (heq : ∀ a ∈ l, ∀ b ∈ l, a.score = b.score) :
    ∀ d ∈ normalize_scores l, d.normalized_score = 1 := by
  cases l with
  | nil => intro d hd; cases hd
  | cons x t =>
    have hmax := listMax_mem ((x :: t).map (·.score)) (by simp)
    have hmin := listMin_mem ((x :: t).map (·.score)) (by simp)
    rcases List.mem_map.mp hmax with ⟨a, ha, hfa⟩
    rcases List.mem_map.mp hmin with ⟨b, hb, hfb⟩
    have hrange : listMax ((x :: t).map (·.score)) - listMin ((x :: t).map (·.score)) = 0 := by
      rw [← hfa, ← hfb, heq a ha b hb, sub_self]
    intro d hd
    simp only [normalize_scores] at hd
    rw [if_neg (by rw [hrange]; exact lt_irrefl 0)] at hd
    rcases List.mem_map.mp hd with ⟨r, _, hfr⟩
    rw [← hfr]

theorem normalize_scores_range_pos (l : List ScoredDoc)
    (hdiff : ∃ a ∈ l, ∃ b ∈ l, a.score ≠ b.score) :
    0 < listMax (l.map (·.score)) - listMin (l.map (·.score)) := by
  rcases hdiff with ⟨a, ha, b, hb, hab⟩
  have hsa : a.score ∈ l.map (·.score) := List.mem_map.mpr ⟨a, ha, rfl⟩
  have hsb : b.score ∈ l.map (·.score) := List.mem_map.mpr ⟨b, hb, rfl⟩
  by_contra hle
  push_neg at hle
  have h1 : a.score = b.score := by
    have := le_listMax _ _ hsa
    have := listMin_le _ _ hsa
    have := le_listMax _ _ hsb
    have := listMin_le _ _ hsb
    linarith
  exact hab h1

theorem normalize_scores_extremes (l : List ScoredDoc)
    (hdiff : ∃ a ∈ l, ∃ b ∈ l, a.score ≠ b.score) :
    ∀ d ∈ normalize_scores l,
      (d.score = listMax (l.map (·.score)) → d.normalized_score = 1) ∧
      (d.score = listMin (l.map (·.score)) → d.normalized_score = 0) := by
  cases l with
  | nil => intro d hd; cases hd
  | cons x t =>
    have hrange := normalize_scores_range_pos (x :: t) hdiff
    intro d hd
    simp only [normalize_scores] at hd
    rw [if_pos hrange] at hd
    rcases List.mem_map.mp hd with ⟨r, _, hfr⟩
    constructor
    · intro hdmax
      rw [← hfr] at hdmax ⊢
      simp only at hdmax ⊢
      rw [hdmax, div_self (ne_of_gt hrange)]
    · intro hdmin
      rw [← hfr] at hdmin ⊢
      simp only at hdmin ⊢
      rw [hdmin, sub_self, zero_div]

/-- C6.  For every non-empty list of raw scores the normalizer produces a
same-length list with all values in `[0,1]` via `(s - min)/(max - min)`; if
all inputs are equal (including a single-element list) every output is `1.0`;
when inputs differ, the maximum input normalizes to `1.0` and the minimum to
`0.0`; the empty list maps to the empty list without error. -/
theorem C6_score_normalizer :
    normalize_scores [] = [] ∧
    ∀ l : List ScoredDoc, l ≠ [] →
      (normalize_scores l).length = l.length ∧
      (∀ d ∈ normalize_scores l, 0 ≤ d.normalized_score ∧ d.normalized_score ≤ 1) ∧
      ((∀ a ∈ l, ∀ b ∈ l, a.score = b.score) →
        ∀ d ∈ normalize_scores l, d.normalized_score = 1) ∧
      ((∃ a ∈ l, ∃ b ∈ l, a.score ≠ b.score) →
        ∀ d ∈ normalize_scores l,
          (d.score = listMax (l.map (·.score)) → d.normalized_score = 1) ∧
          (d.score = listMin (l.map (·.score)) → d.normalized_score = 0)) := by
  refine ⟨rfl, fun l hne => ⟨normalize_scores_length l, normalize_scores_bounds l,
    normalize_scores_all_eq l hne, normalize_scores_extremes l⟩⟩

/-- Witness for C6 at the concrete score list `[1, 3]`. -/
theorem C6_score_normalizer_witness :
    (normalize_scores [⟨"a", 1, 0⟩, ⟨"b", 3, 0⟩]).length = 2 := by
  have h := (C6_score_normalizer.2 [⟨"a", 1, 0⟩, ⟨"b", 3, 0⟩] (by simp)).1
  simpa using h

/-! ## C8: the intent classifier -/

/-- The trigger-phrase set in the order the claim lists it (the source stores
the same nine phrases in a different order). -/
def claim_trigger_phrases : List String :=
  ["all", "every", "list", "how many", "enumerate", "complete list",
   "give me all", "show me all", "what are all"]

/-- C8.  The intent classifier returns exhaustive iff the lowercased query
contains one of the nine fixed trigger phrases as a substring; in particular
`"list all ordinances about zoning"` is exhaustive and
`"what is ordinance 2023-05 about"` is specific. -/
theorem C8_intent_classifier :
    (∀ q : String, is_exhaustive_query q = true ↔
      ∃ p ∈ claim_trigger_phrases, pyContains (pyLower q) p = true) ∧
    is_exhaustive_query "list all ordinances about zoning" = true ∧
    is_exhaustive_query "what is ordinance 2023-05 about" = false := by
  refine ⟨fun q => ?_, by decide, by decide⟩
  simp only [is_exhaustive_query, List.any_eq_true]
  constructor
  · rintro ⟨p, hp, h⟩
    fin_cases hp <;> exact ⟨_, by simp [claim_trigger_phrases], h⟩
  · rintro ⟨p, hp, h⟩
    fin_cases hp <;> exact ⟨_, by simp [exhaustive_keywords], h⟩

/-- Witness for C8: the theorem applied to the zoning query. -/
theorem C8_intent_classifier_witness :
    is_exhaustive_query "list all ordinances about zoning" = true :=
  C8_intent_classifier.2.1

/-! ## C10: content moderation on both endpoints -/

/-- C10.  A query whose lowercased text contains a disallowed phrase is
rejected with HTTP 400 by both `chat_api` and `search_documents` regardless of
every collaborator outcome (so before any retrieval or generation), and
allowed queries never receive the moderation rejection. -/
theorem C10_content_moderation :
    (∀ q : String, is_allowed q = false ↔
      ∃ p ∈ DISALLOWED, pyContains (pyLower q) p = true) ∧
    (∀ (q : String) (chat_id user_id : Option String)
       (sc : Except String String) (rag : Bool)
       (retr : Except String (List HDoc)) (chunks : List (String × ℚ))
       (gexn : Option String) (t0 : ℚ),
       is_allowed q = false →
         chat_api q chat_id user_id sc rag retr chunks gexn t0 =
           .json 400 moderationMsg) ∧
    (∀ (q : String) (rag : Bool) (sr : Except String (List HDoc)),
       is_allowed q = false →
         search_documents q rag sr = .json 400 moderationMsg) ∧
    (∀ (q : String) (chat_id user_id : Option String)
       (sc : Except String String) (rag : Bool)
       (retr : Except String (List HDoc)) (chunks : List (String × ℚ))
       (gexn : Option String) (t0 : ℚ),
       is_allowed q = true →
         chat_api q chat_id user_id sc rag retr chunks gexn t0 ≠
           .json 400 moderationMsg) ∧
    (∀ (q : String) (rag : Bool) (sr : Except String (List HDoc)),
       is_allowed q = true →
         search_documents q rag sr ≠ .json 400 moderationMsg) := by
  refine ⟨fun q => ?_, ?_, ?_, ?_, ?_⟩
  · simp [is_allowed, List.any_eq_true]
  · intro q chat_id user_id sc rag retr chunks gexn t0 h
    simp [chat_api, h]
  · intro q rag sr h
    simp [search_documents, h]
  · intro q chat_id user_id sc rag retr chunks gexn t0 h
    simp only [chat_api, h]
    cases user_id with
    | none => simp
    | some uid =>
      cases chat_id with
      | some cid => cases rag <;> simp
      | none => cases sc with
        | error e => simp
        | ok cid => cases rag <;> simp
  · intro q rag sr h
    simp only [search_documents, h]
    cases rag with
    | true => simp
    | false => cases sr <;> simp

/-- Witness for C10: the chat endpoint rejects a disallowed query. -/
theorem C10_content_moderation_witness :
    chat_api "how to make a bomb" none none (.ok "c") false (.ok []) [] none 0 =
      .json 400 moderationMsg :=
  C10_content_moderation.2.1 "how to make a bomb" none none (.ok "c") false
    (.ok []) [] none 0 (by decide)

/-! ## C9: abstracts render first -/

theorem splitByAbstract_eq (l : List FDoc) :
    splitByAbstract l =
      (l.filter (fun d => d.content_type == "abstract"),
       l.filter (fun d => !(d.content_type == "abstract"))) := by
  induction l with
  | nil => rfl
  | cons d rest ih =>
    cases h : (d.content_type == "abstract") with
    | true => simp [splitByAbstract, ih, List.filter_cons, h]
    | false => simp [splitByAbstract, ih, List.filter_cons, h]

/-- C9.  The formatter renders every abstract-tagged document before every
non-abstract document (the output depends only on the abstract sublist
followed by the non-abstract sublist, each in input order), and the empty
document list renders as the empty string. -/
theorem C9_abstracts_first :
    format_docs [] = "" ∧
    ∀ docs : List FDoc,
      format_docs docs =
        String.intercalate "\n\n"
          ((docs.filter (fun d => d.content_type == "abstract")).map renderDoc ++
           (docs.filter (fun d => !(d.content_type == "abstract"))).map renderDoc) ∧
      format_docs docs =
        format_docs (docs.filter (fun d => d.content_type == "abstract") ++
                     docs.filter (fun d => !(d.content_type == "abstract"))) := by
  refine ⟨rfl, fun docs => ⟨?_, ?_⟩⟩
  · rw [format_docs, splitByAbstract_eq]
  · rw [format_docs, format_docs, splitByAbstract_eq, splitByAbstract_eq]
    simp [List.filter_append, List.filter_filter]

/-! ## Lemmas about `String.join` and the streaming loop -/

theorem strFoldlAppend (l : List String) (a b : String) :
    l.foldl (· ++ ·) (a ++ b) = a ++ l.foldl (· ++ ·) b := by
  induction l generalizing b with
  | nil => rfl
  | cons x xs ih =>
    simp only [List.foldl_cons]
    rw [String.append_assoc, ih]

theorem strJoinCons (c : String) (cs : List String) :
    String.join (c :: cs) = c ++ String.join cs := by
  simp only [String.join, List.foldl_cons]
  rw [String.empty_append, ← String.append_empty c, strFoldlAppend,
    String.append_empty]

theorem strJoin_length (l : List String) :
    (String.join l).length = (l.map String.length).sum := by
  induction l with
  | nil => rfl
  | cons c cs ih => rw [strJoinCons, String.length_append, ih, List.map_cons, List.sum_cons]

/-- Constant-arrival-time run of the streaming loop that stays under the chunk
cap: every chunk is appended, counted and yielded, and no guard trips. -/
theorem streamLoop_const_time_ok (cl : List String) (t : ℚ) (st : GenState)
    (hne : ∀ c ∈ cl, c ≠ "") (hlast : st.last_chunk_time = t)
    (hcap : st.chunk_count + cl.length ≤ 10000) :
    streamLoop 10000 st (cl.map (fun c => (c, t))) =
      { bot_response := st.bot_response ++ String.join cl,
        chunk_count := st.chunk_count + cl.length,
        stream_error := st.stream_error,
        last_chunk_time := t,
        yielded := st.yielded ++ cl } := by
  induction cl generalizing st with
  | nil =>
    cases st with
    | mk b c e lt y => simp_all [streamLoop, String.join]
  | cons c cs ih =>
    have hc : c ≠ "" := hne c (List.mem_cons_self c cs)
    have hcap1 : ¬ (st.chunk_count + 1 > 10000) := by
      simp only [List.length_cons] at hcap; omega
    have htime : ¬ (t - st.last_chunk_time > 30) := by
      rw [hlast]; simp
    simp only [List.map_cons, streamLoop, if_neg hc, if_neg hcap1, if_neg htime]
    rw [ih _ (fun x hx => hne x (List.mem_cons_of_mem c hx)) rfl
      (by show st.chunk_count + 1 + cs.length ≤ 10000
          simp only [List.length_cons] at hcap; omega)]
    simp only [List.length_cons, strJoinCons, ← String.append_assoc,
      GenState.mk.injEq]
    refine ⟨trivial, by omega, trivial, trivial, by simp⟩

/-- Constant-arrival-time run of the streaming loop that overruns the chunk
cap: the loop stops while handling chunk `10001 - st.chunk_count`; that chunk
is appended and counted but not yielded, and `stream_error` becomes
`response_too_long`. -/
theorem streamLoop_const_time_cap (cl : List String) (t : ℚ) (st : GenState)
    (hne : ∀ c ∈ cl, c ≠ "") (hlast : st.last_chunk_time = t)
    (hcap : st.chunk_count ≤ 10000) (hover : 10000 < st.chunk_count + cl.length) :
    streamLoop 10000 st (cl.map (fun c => (c, t))) =
      { bot_response := st.bot_response ++ String.join (cl.take (10001 - st.chunk_count)),
        chunk_count := 10001,
        stream_error := some "response_too_long",
        last_chunk_time := t,
        yielded := st.yielded ++ cl.take (10000 - st.chunk_count) } := by
  induction cl generalizing st with
  | nil => simp only [List.length_nil, Nat.add_zero] at hover; omega
  | cons c cs ih =>
    have hc : c ≠ "" := hne c (List.mem_cons_self c cs)
    by_cases hfull : st.chunk_count + 1 > 10000
    · have hcount : st.chunk_count = 10000 := by omega
      have htake1 : 10001 - st.chunk_count = 1 := by omega
      have htake0 : 10000 - st.chunk_count = 0 := by omega
      simp only [List.map_cons, streamLoop, if_neg hc, if_pos hfull, htake1, htake0,
        List.take_succ_cons, List.take_zero, List.take]
      rw [strJoinCons]
      simp [String.join, hcount, hlast]
    · have htime : ¬ (t - st.last_chunk_time > 30) := by
        rw [hlast]; simp
      simp only [List.map_cons, streamLoop, if_neg hc, if_neg hfull, if_neg htime]
      rw [ih _ (fun x hx => hne x (List.mem_cons_of_mem c hx)) rfl
        (by show st.chunk_count + 1 ≤ 10000; omega)
        (by show 10000 < st.chunk_count + 1 + cs.length
            simp only [List.length_cons] at hover; omega)]
      have e1 : 10001 - (st.chunk_count + 1) = 10000 - st.chunk_count := by omega
      have e2 : 10000 - (st.chunk_count + 1) = 9999 - st.chunk_count := by omega
      have e3 : 10001 - st.chunk_count = (10000 - st.chunk_count) + 1 := by omega
      have e4 : 10000 - st.chunk_count = (9999 - st.chunk_count) + 1 := by omega
      simp only [e1, e2, e3, e4, List.take_succ_cons]
      rw [strJoinCons]
      simp [← String.append_assoc]

/-! ## C1: the 10,000-chunk cap -/

/-- C1 (amended).  A chunk source of more than 10,000 non-empty chunks with no
inter-chunk delay is stopped while the driver handles chunk 10,001: the
stream yields exactly the first 10,000 chunks as tokens and sets
`stream_error = response_too_long`, but the accumulated answer is the
concatenation of the first 10,001 chunks — the guard-tripping chunk is
appended and counted before the cap check. -/
theorem C1_chunk_cap (cl : List String) (t0 : ℚ)
    (hne : ∀ c ∈ cl, c ≠ "") (hlen : 10000 < cl.length) :
    (streamLoop 10000 (initState t0) (cl.map (fun c => (c, t0)))).stream_error =
      some "response_too_long" ∧
    (streamLoop 10000 (initState t0) (cl.map (fun c => (c, t0)))).chunk_count = 10001 ∧
    (streamLoop 10000 (initState t0) (cl.map (fun c => (c, t0)))).bot_response =
      String.join (cl.take 10001) ∧
    (streamLoop 10000 (initState t0) (cl.map (fun c => (c, t0)))).yielded =
      cl.take 10000 := by
  have h := streamLoop_const_time_cap cl t0 (initState t0) hne rfl
    (by show (0:Nat) ≤ 10000; omega)
    (by show 10000 < 0 + cl.length; omega)
  rw [h]
  simp [initState, String.empty_append]

/-- Witness for C1 on the synthetic generator of 10,001 one-character
chunks. -/
theorem C1_chunk_cap_witness :
    (streamLoop 10000 (initState 0)
        ((List.replicate 10001 "a").map (fun c => (c, 0)))).stream_error =
      some "response_too_long" :=
  (C1_chunk_cap (List.replicate 10001 "a") 0
    (by intro c hc; rw [List.eq_of_mem_replicate hc]; decide)
    (by rw [List.length_replicate]; omega)).1

theorem strJoin_replicate_length (n : Nat) :
    (String.join (List.replicate n "a")).length = n := by
  rw [strJoin_length]
  simp [List.map_replicate, show ("a" : String).length = 1 from rfl]

/-- Counterexample to C1 as stated: on 10,001 instantaneous chunks `"a"` the
accumulated answer is the concatenation of the first 10,001 chunks, not of the
first 10,000 — the two strings differ in length. -/
theorem C1_counterexample :
    (streamLoop 10000 (initState 0)
        ((List.replicate 10001 "a").map (fun c => (c, 0)))).bot_response ≠
      String.join ((List.replicate 10001 "a").take 10000) := by
  have h := streamLoop_const_time_cap (List.replicate 10001 "a") 0 (initState 0)
    (by intro c hc; rw [List.eq_of_mem_replicate hc]; decide) rfl
    (by rw [show (initState (0:ℚ)).chunk_count = 0 from rfl]; omega)
    (by rw [show (initState (0:ℚ)).chunk_count = 0 from rfl, List.length_replicate]
        omega)
  rw [h]
  show ¬ ((initState (0:ℚ)).bot_response ++
      String.join (List.take (10001 - (initState (0:ℚ)).chunk_count)
        (List.replicate 10001 "a"))) =
    String.join (List.take 10000 (List.replicate 10001 "a"))
  rw [show (10001 - (initState (0:ℚ)).chunk_count) = 10001 from rfl]
  rw [List.take_replicate, List.take_replicate]
  rw [show (10001 : Nat) ⊓ 10001 = 10001 from by omega,
    show (10000 : Nat) ⊓ 10001 = 10000 from by omega]
  rw [show (initState (0:ℚ)).bot_response = "" from rfl, String.empty_append]
  intro heq
  have hlen := congrArg String.length heq
  rw [strJoin_replicate_length, strJoin_replicate_length] at hlen
  exact absurd hlen (by decide)

/-! ## Record-stream lemmas for the chat generators -/

/-- A record list of the shape `chat_id`, non-terminal middle, one `done`
record has exactly one terminal record and it is last. -/
theorem one_terminal_shape (cid : String) (toks : List Rec)
    (htok : ∀ r ∈ toks, isTerminalRec r = false) (a b : Option String) :
    (([Rec.chatId cid] ++ toks ++ [Rec.done a b]).filter isTerminalRec).length = 1 ∧
    ([Rec.chatId cid] ++ toks ++ [Rec.done a b]).getLast? = some (Rec.done a b) := by
  constructor
  · rw [List.filter_append, List.filter_append]
    have h2 : toks.filter isTerminalRec = [] := by
      induction toks with
      | nil => rfl
      | cons r rs ih =>
        rw [List.filter_cons, if_neg (by simp [htok r (List.mem_cons_self r rs)])]
        exact ih (fun x hx => htok x (List.mem_cons_of_mem r hx))
    rw [h2]
    rfl
  · exact List.getLast?_concat _

theorem token_recs_not_terminal (l : List String) :
    ∀ r ∈ l.map Rec.token, isTerminalRec r = false := by
  intro r hr
  rcases List.mem_map.mp hr with ⟨s, _, rfl⟩
  rfl

theorem char_token_recs_not_terminal (l : List Char) :
    ∀ r ∈ l.map (fun c => Rec.token (String.singleton c)), isTerminalRec r = false := by
  intro r hr
  rcases List.mem_map.mp hr with ⟨s, _, rfl⟩
  rfl

/-! ## C2: exactly one terminal record, always last -/

/-- C2.  Every execution of the chat streaming endpoint — normal completion,
guard trip, fallback, or an exception from retrieval or generation — emits
exactly one `done: true` record and that record is the last record of the
stream. -/
theorem C2_one_terminal_record :
    (∀ (chat_id : String) (retrieval : Except String (List HDoc))
       (chunks : List (String × ℚ)) (gen_exn : Option String) (t0 : ℚ),
       ((generate chat_id retrieval chunks gen_exn t0).recs.filter
           isTerminalRec).length = 1 ∧
       ∃ r, (generate chat_id retrieval chunks gen_exn t0).recs.getLast? = some r ∧
         isTerminalRec r = true) ∧
    (∀ chat_id : String,
       ((generate_fallback chat_id).filter isTerminalRec).length = 1 ∧
       ∃ r, (generate_fallback chat_id).getLast? = some r ∧
         isTerminalRec r = true) := by
  constructor
  · intro chat_id retrieval chunks gen_exn t0
    cases retrieval with
    | error e =>
      refine ⟨rfl, Rec.done (some (classify_error e)) none, rfl, rfl⟩
    | ok ctx =>
      show _ ∧ _
      simp only [generate]
      cases hst : (streamLoop 10000 (initState t0) chunks).stream_error with
      | some w =>
        have h := one_terminal_shape chat_id
          ((streamLoop 10000 (initState t0) chunks).yielded.map Rec.token)
          (token_recs_not_terminal _) none (some w)
        exact ⟨h.1, Rec.done none (some w), h.2, rfl⟩
      | none =>
        cases gen_exn with
        | some e =>
          have h := one_terminal_shape chat_id
            ((streamLoop 10000 (initState t0) chunks).yielded.map Rec.token)
            (token_recs_not_terminal _) (some (classify_error e)) none
          exact ⟨h.1, Rec.done (some (classify_error e)) none, h.2, rfl⟩
        | none =>
          have h := one_terminal_shape chat_id
            ((streamLoop 10000 (initState t0) chunks).yielded.map Rec.token)
            (token_recs_not_terminal _) none none
          exact ⟨h.1, Rec.done none none, h.2, rfl⟩
  · intro chat_id
    have h := one_terminal_shape chat_id
      (fallbackText.data.map (fun c => Rec.token (String.singleton c)))
      (char_token_recs_not_terminal _) (some "system_unavailable") none
    exact ⟨h.1, Rec.done (some "system_unavailable") none, h.2, rfl⟩

/-! ## C3: the async persistence sink -/

/-- C3 (amended).  On the main chat stream the persistence routine is started
exactly once when the stream ends normally or via a stream guard, and once
after a generation exception provided some answer text was accumulated; after
a retrieval failure (no text accumulated) and after a generation exception
with no accumulated text it is not started at all.  When it runs it always
attempts the user-turn save, attempts the assistant-turn save exactly when
some text was accumulated, catches an analytics failure, and never raises. -/
theorem C3_persistence_sink :
    (∀ (cid e : String) (chunks : List (String × ℚ)) (gexn : Option String) (t0 : ℚ),
       (generate cid (.error e) chunks gexn t0).sinkCalls = 0 ∧
       (generate cid (.error e) chunks gexn t0).bot_response = "") ∧
    (∀ (cid : String) (ctx : List HDoc) (chunks : List (String × ℚ)) (t0 : ℚ),
       (generate cid (.ok ctx) chunks none t0).sinkCalls = 1) ∧
    (∀ (cid : String) (ctx : List HDoc) (chunks : List (String × ℚ)) (e : String) (t0 : ℚ),
       (streamLoop 10000 (initState t0) chunks).stream_error ≠ none →
       (generate cid (.ok ctx) chunks (some e) t0).sinkCalls = 1) ∧
    (∀ (cid : String) (ctx : List HDoc) (chunks : List (String × ℚ)) (e : String) (t0 : ℚ),
       (streamLoop 10000 (initState t0) chunks).stream_error = none →
       (generate cid (.ok ctx) chunks (some e) t0).sinkCalls =
         (if (streamLoop 10000 (initState t0) chunks).bot_response = "" then 0 else 1)) ∧
    (∀ (env : SinkEnv) (bot : String),
       (save_messages_and_analytics_async env bot).userSaveAttempted = true ∧
       ((save_messages_and_analytics_async env bot).botSaveAttempted = true ↔ bot ≠ "") ∧
       (save_messages_and_analytics_async env bot).raised = false ∧
       (∀ e, env.analyticsInsert = .error e →
         (save_messages_and_analytics_async env bot).analyticsFailureCaught = true)) := by
  refine ⟨fun cid e chunks gexn t0 => ⟨rfl, rfl⟩, ?_, ?_, ?_, ?_⟩
  · intro cid ctx chunks t0
    simp only [generate]
    cases hst : (streamLoop 10000 (initState t0) chunks).stream_error <;> rfl
  · intro cid ctx chunks e t0 hst
    simp only [generate]
    cases h : (streamLoop 10000 (initState t0) chunks).stream_error with
    | some w => rfl
    | none => exact absurd h hst
  · intro cid ctx chunks e t0 hst
    simp only [generate, hst]
  · intro env bot
    refine ⟨rfl, ?_, rfl, ?_⟩
    · simp [save_messages_and_analytics_async, bne_iff_ne]
    · intro e he
      simp [save_messages_and_analytics_async, he]

/-- Witness for C3: a generation exception after one accumulated chunk starts
the sink exactly once. -/
theorem C3_persistence_sink_witness :
    (generate "c" (.ok []) [("hi", 0)] (some "boom") 0).sinkCalls = 1 := by
  have hs : streamLoop 10000 (initState 0) [("hi", 0)] =
      { bot_response := "hi", chunk_count := 1, stream_error := none,
        last_chunk_time := 0, yielded := ["hi"] } := by
    norm_num [streamLoop, initState]
    decide
  have h := C3_persistence_sink.2.2.2.1 "c" [] [("hi", 0)] "boom" 0
    (by rw [hs])
  rw [h, hs]
  rw [if_neg (show ¬ ("hi" = "") from by decide)]

/-- Counterexample to C3 as stated: a retrieval failure ends the stream with a
terminal error record, yet the persistence sink is started zero times, not
exactly once. -/
theorem C3_counterexample :
    (generate "c" (.error "boom") [] none 0).sinkCalls = 0 ∧
    (0 : Nat) ≠ 1 ∧
    ∃ r, (generate "c" (.error "boom") [] none 0).recs.getLast? = some r ∧
      isTerminalRec r = true := by
  exact ⟨rfl, by decide, Rec.done (some (classify_error "boom")) none, rfl, rfl⟩

/-! ## C4: the exhaustive retrieval path -/

/-- The raw semantic score of a fused document in the claim's reading:
the raw score it had in the semantic result list, `0` when it never appeared
there.  Helper for `smart_retrieve_claim` only. -/
def rawSemanticScore (semantic_results : List ScoredDoc) (d : HDoc) : ℚ :=
  match semantic_results.find? (fun r => r.text == d.text) with
  | some r => r.score
  | none => 0

/-- Follows the claim's words, not the source: the exhaustive threshold is
computed from the raw *semantic* score of the top result and the filter keeps
the candidates whose raw semantic score is below it.  The source instead reads
the `'score'` metadata key, which holds the raw score of whichever retriever
produced the stored document object — a BM25 raw score for a
keyword-only document. -/
def smart_retrieve_claim (query : String) (semantic_results bm25_results : List ScoredDoc) :
    List HDoc :=
  if is_exhaustive_query query then
    let docs := hybrid_search semantic_results bm25_results 50 (7/10) (3/10)
    match docs with
    | [] => []
    | d :: _ =>
      let threshold := min (rawSemanticScore semantic_results d * (3/2)) 2
      docs.filter (fun doc => rawSemanticScore semantic_results doc ≤ threshold)
  else
    hybrid_search semantic_results bm25_results 6 (7/10) (3/10)

/-- C4 (amended).  For an exhaustive query the controller calls hybrid fusion
with breadth 50 and filters by `min(best * 1.5, 2.0)`, where `best` is the raw
retriever score stored on the top fused document (the raw semantic similarity
when that document came from the semantic retriever, its raw BM25 score
otherwise), keeping exactly the candidates whose own stored raw score is ≤ the
threshold; a best stored score of 0.4 yields threshold 0.6, and an empty
candidate list yields an empty result rather than an error. -/
theorem C4_exhaustive_path (q : String) (sem bm : List ScoredDoc)
    (hq : is_exhaustive_query q = true) :
    (hybrid_search sem bm 50 (7/10) (3/10) = [] → smart_retrieve q sem bm = []) ∧
    (∀ d0 rest, hybrid_search sem bm 50 (7/10) (3/10) = d0 :: rest →
      (∀ x, x ∈ smart_retrieve q sem bm ↔
        x ∈ hybrid_search sem bm 50 (7/10) (3/10) ∧
        x.score ≤ min (d0.score * (3/2)) 2) ∧
      (d0.score = 2/5 → min (d0.score * (3/2)) 2 = 3/5)) := by
  constructor
  · intro h
    simp only [smart_retrieve, hq, if_true, h]
  · intro d0 rest h
    constructor
    · intro x
      simp only [smart_retrieve, hq, if_true, h, List.mem_filter,
        decide_eq_true_eq]
    · intro h04
      rw [h04]
      norm_num

/-- Witness for C4: an exhaustive query over empty retriever outputs yields an
empty result, not an error. -/
theorem C4_exhaustive_path_witness :
    smart_retrieve "list all" ([] : List ScoredDoc) ([] : List ScoredDoc) = [] :=
  (C4_exhaustive_path "list all" [] [] (by decide)).1 rfl

/-- Counterexample to C4 as stated: when the only candidate comes from the
keyword retriever alone (raw BM25 score 7), the source computes the threshold
from that BM25 score and filters it out (`7 ≤ 2` fails), returning `[]`; under
the claim's reading the raw semantic score of that candidate is 0, the
threshold is `min(0 × 1.5, 2) = 0`, and the candidate is kept. -/
theorem C4_counterexample :
    smart_retrieve "give me all ordinances" [] [⟨"b", 7, 0⟩] = [] ∧
    smart_retrieve_claim "give me all ordinances" [] [⟨"b", 7, 0⟩] ≠ [] := by
  have hq : is_exhaustive_query "give me all ordinances" = true := by decide
  have hh : hybrid_search [] [⟨"b", 7, 0⟩] 50 (7/10) (3/10) =
      [{ text := "b", score := 7, normalized_score := 1, hybrid_score := 3/10,
         semantic_score := 0, bm25_score := 1 }] := by
    norm_num [hybrid_search, normalize_scores, listMax, listMin, addBm25Result,
      List.insertionSort, List.orderedInsert]
  constructor
  · simp only [smart_retrieve, hq, if_true, hh, List.filter_cons, List.filter_nil]
    rw [if_neg (by norm_num)]
  · simp only [smart_retrieve_claim, hq, if_true, hh, List.filter_cons,
      List.filter_nil, rawSemanticScore, List.find?_nil]
    rw [if_pos (by norm_num)]
    simp

/-! ## Fold lemmas for hybrid fusion (`combined` dict construction) -/

/-- Every entry built by the semantic loop is the fused image of some
normalized semantic result. -/
theorem semState_shape (ws : ℚ) (sN : List ScoredDoc) :
    ∀ e ∈ sN.foldl (addSemanticResult ws) [],
      ∃ r ∈ sN, e = ⟨r, r.normalized_score * ws, r.normalized_score, 0⟩ := by
  suffices h : ∀ (l : List ScoredDoc) (acc : List FEntry),
      (∀ e ∈ acc, ∃ r ∈ sN, e = ⟨r, r.normalized_score * ws, r.normalized_score, 0⟩) →
      (∀ r ∈ l, r ∈ sN) →
      ∀ e ∈ l.foldl (addSemanticResult ws) acc,
        ∃ r ∈ sN, e = ⟨r, r.normalized_score * ws, r.normalized_score, 0⟩ by
    exact h sN [] (by intro e he; cases he) (fun r hr => hr)
  intro l
  induction l with
  | nil => intro acc hacc _ e he; exact hacc e he
  | cons r rest ih =>
    intro acc hacc hsub e he
    refine ih (addSemanticResult ws acc r) ?_ (fun x hx => hsub x (List.mem_cons_of_mem r hx)) e he
    intro e' he'
    simp only [addSemanticResult] at he'
    split at he'
    · rcases List.mem_map.mp he' with ⟨x, hx, hfx⟩
      by_cases hxt : (x.doc.text == r.text) = true
      · rw [if_pos hxt] at hfx
        exact ⟨r, hsub r (List.mem_cons_self r rest), hfx.symm⟩
      · rw [if_neg hxt] at hfx
        exact hfx ▸ hacc x hx
    · rcases List.mem_append.mp he' with h | h
      · exact hacc e' h
      · rw [List.mem_singleton.mp h]
        exact ⟨r, hsub r (List.mem_cons_self r rest), rfl⟩

/-- A property preserved by the BM25 merge step and satisfied by new BM25-only
entries survives the whole BM25 loop. -/
theorem foldl_addBm_mem (wb : ℚ) (bN : List ScoredDoc) (Q : FEntry → Prop)
    (hupd : ∀ e r, Q e → r ∈ bN → e.doc.text = r.text →
      Q { e with bm25_score := r.normalized_score,
                 hybrid_score := e.hybrid_score + r.normalized_score * wb })
    (hnew : ∀ r ∈ bN, Q ⟨r, r.normalized_score * wb, 0, r.normalized_score⟩) :
    ∀ acc, (∀ e ∈ acc, Q e) → ∀ e ∈ bN.foldl (addBm25Result wb) acc, Q e := by
  suffices h : ∀ (l : List ScoredDoc) (acc : List FEntry),
      (∀ r ∈ l, r ∈ bN) → (∀ e ∈ acc, Q e) →
      ∀ e ∈ l.foldl (addBm25Result wb) acc, Q e by
    intro acc hacc
    exact h bN acc (fun r hr => hr) hacc
  intro l
  induction l with
  | nil => intro acc _ hacc e he; exact hacc e he
  | cons r rest ih =>
    intro acc hsub hacc e he
    refine ih (addBm25Result wb acc r) (fun x hx => hsub x (List.mem_cons_of_mem r hx)) ?_ e he
    intro e' he'
    simp only [addBm25Result] at he'
    split at he'
    · rcases List.mem_map.mp he' with ⟨x, hx, hfx⟩
      by_cases hxt : (x.doc.text == r.text) = true
      · rw [if_pos hxt] at hfx
        exact hfx ▸ hupd x r (hacc x hx) (hsub r (List.mem_cons_self r rest))
          (beq_iff_eq.mp hxt)
      · rw [if_neg hxt] at hfx
        exact hfx ▸ hacc x hx
    · rcases List.mem_append.mp he' with h | h
      · exact hacc e' h
      · rw [List.mem_singleton.mp h]
        exact hnew r (hsub r (List.mem_cons_self r rest))

/-- When the BM25 result texts are pairwise distinct, the BM25 loop keeps
every entry's hybrid score equal to the weighted sum of its component
scores. -/
theorem foldl_addBm_eqn (ws wb : ℚ) (bN : List ScoredDoc)
    (hnodup : (bN.map (fun r => r.text)).Nodup) :
    ∀ acc,
      (∀ e ∈ acc, e.hybrid_score = e.semantic_score * ws + e.bm25_score * wb) →
      (∀ e ∈ acc, e.doc.text ∈ bN.map (fun r => r.text) → e.bm25_score = 0) →
      ∀ e ∈ bN.foldl (addBm25Result wb) acc,
        e.hybrid_score = e.semantic_score * ws + e.bm25_score * wb := by
  induction bN with
  | nil => intro acc h1 _ e he; exact h1 e he
  | cons r rest ih =>
    rw [List.map_cons, List.nodup_cons] at hnodup
    obtain ⟨hrt, hrest⟩ := hnodup
    intro acc h1 h2 e he
    refine ih hrest (addBm25Result wb acc r) ?eq1 ?eq2 e he
    case eq1 =>
      intro e' he'
      simp only [addBm25Result] at he'
      split at he'
      · rcases List.mem_map.mp he' with ⟨x, hx, hfx⟩
        by_cases hxt : (x.doc.text == r.text) = true
        · rw [if_pos hxt] at hfx
          have hbm0 : x.bm25_score = 0 :=
            h2 x hx (by
              rw [beq_iff_eq.mp hxt]
              exact List.mem_map.mpr ⟨r, List.mem_cons_self r rest, rfl⟩)
          have heq := h1 x hx
          rw [← hfx]
          simp only
          rw [heq, hbm0]
          ring
        · rw [if_neg hxt] at hfx
          exact hfx ▸ h1 x hx
      · rcases List.mem_append.mp he' with h | h
        · exact h1 e' h
        · rw [List.mem_singleton.mp h]
          simp only
          ring
    case eq2 =>
      intro e' he' hmem
      simp only [addBm25Result] at he'
      split at he'
      · rcases List.mem_map.mp he' with ⟨x, hx, hfx⟩
        by_cases hxt : (x.doc.text == r.text) = true
        · rw [if_pos hxt] at hfx
          exfalso
          apply hrt
          rw [← beq_iff_eq.mp hxt]
          have hte : e'.doc.text = x.doc.text := by rw [← hfx]
          rw [← hte]
          exact hmem
        · rw [if_neg hxt] at hfx
          rw [← hfx]
          refine h2 x hx ?_
          rw [← hfx] at hmem
          rcases List.mem_map.mp hmem with ⟨y, hy, hyt⟩
          exact List.mem_map.mpr ⟨y, List.mem_cons_of_mem r hy, hyt⟩
      · rcases List.mem_append.mp he' with h | h
        · refine h2 e' h ?_
          rcases List.mem_map.mp hmem with ⟨y, hy, hyt⟩
          exact List.mem_map.mpr ⟨y, List.mem_cons_of_mem r hy, hyt⟩
        · exfalso
          apply hrt
          have he'' := List.mem_singleton.mp h
          rw [he''] at hmem
          exact hmem

/-- Every document returned by `hybrid_search` is the image of an entry of the
`combined` dict. -/
theorem hybrid_search_mem (sem bm : List ScoredDoc) (k : Nat) (ws wb : ℚ) :
    ∀ d ∈ hybrid_search sem bm k ws wb,
      ∃ e ∈ (normalize_scores bm).foldl (addBm25Result wb)
          ((normalize_scores sem).foldl (addSemanticResult ws) []),
        d = ⟨e.doc.text, e.doc.score, e.doc.normalized_score,
             e.hybrid_score, e.semantic_score, e.bm25_score⟩ := by
  intro d hd
  simp only [hybrid_search] at hd
  rcases List.mem_map.mp hd with ⟨e, he, hfe⟩
  have h1 := List.take_subset k _ he
  have h2 := (List.perm_insertionSort
    (fun a b : FEntry => b.hybrid_score ≤ a.hybrid_score) _).mem_iff.mp h1
  exact ⟨e, h2, hfe.symm⟩

/-! ## C7: hybrid fusion invariants -/

/-- C7 (amended).  Every fused result has `hybrid_score ≥ 0`; a document absent
from the semantic results has `semantic_score = 0` and one absent from the
keyword results has `bm25_score = 0` (never null — the field always carries a
value); and provided the keyword result list has no two entries with the same
text, `hybrid_score = semantic_score·0.7 + bm25_score·0.3`.  (With duplicated
keyword texts the dict merge adds the weighted keyword score twice while
overwriting `bm25_score`, breaking the equation — see the counterexample.) -/
theorem C7_fusion_invariants (sem bm : List ScoredDoc) (k : Nat) :
    (∀ d ∈ hybrid_search sem bm k (7/10) (3/10),
      0 ≤ d.hybrid_score ∧
      (d.text ∉ sem.map (fun r => r.text) → d.semantic_score = 0) ∧
      (d.text ∉ bm.map (fun r => r.text) → d.bm25_score = 0)) ∧
    ((bm.map (fun r => r.text)).Nodup →
      ∀ d ∈ hybrid_search sem bm k (7/10) (3/10),
        d.hybrid_score = d.semantic_score * (7/10) + d.bm25_score * (3/10)) := by
  have hsemtexts : (normalize_scores sem).map (fun r => r.text) =
      sem.map (fun r => r.text) := normalize_scores_texts sem
  have hbmtexts : (normalize_scores bm).map (fun r => r.text) =
      bm.map (fun r => r.text) := normalize_scores_texts bm
  constructor
  · intro d hd
    rcases hybrid_search_mem sem bm k (7/10) (3/10) d hd with ⟨e, he, hde⟩
    have base := semState_shape (7/10) (normalize_scores sem)
    -- hybrid_score ≥ 0
    have hpos : ∀ x ∈ (normalize_scores bm).foldl (addBm25Result (3/10))
        ((normalize_scores sem).foldl (addSemanticResult (7/10)) []),
        0 ≤ x.hybrid_score := by
      refine foldl_addBm_mem (3/10) (normalize_scores bm) (fun x => 0 ≤ x.hybrid_score)
        ?_ ?_ _ ?_
      · intro x r hx hr _
        have hr0 : 0 ≤ r.normalized_score := (normalize_scores_bounds bm r hr).1
        simp only
        nlinarith
      · intro r hr
        have hr0 : 0 ≤ r.normalized_score := (normalize_scores_bounds bm r hr).1
        simp only
        nlinarith
      · intro x hx
        rcases base x hx with ⟨r, hr, rfl⟩
        have hr0 : 0 ≤ r.normalized_score := (normalize_scores_bounds sem r hr).1
        simp only
        nlinarith
    -- keyword-only documents have semantic_score = 0
    have hsem0 : ∀ x ∈ (normalize_scores bm).foldl (addBm25Result (3/10))
        ((normalize_scores sem).foldl (addSemanticResult (7/10)) []),
        x.doc.text ∉ sem.map (fun r => r.text) → x.semantic_score = 0 := by
      refine foldl_addBm_mem (3/10) (normalize_scores bm)
        (fun x => x.doc.text ∉ sem.map (fun r => r.text) → x.semantic_score = 0)
        ?_ ?_ _ ?_
      · intro x r hx _ _ hmem
        exact hx hmem
      · intro r _ _
        rfl
      · intro x hx hmem
        rcases base x hx with ⟨r, hr, rfl⟩
        exact absurd (hsemtexts ▸ List.mem_map.mpr ⟨r, hr, rfl⟩) hmem
    -- semantic-only documents have bm25_score = 0
    have hbm0 : ∀ x ∈ (normalize_scores bm).foldl (addBm25Result (3/10))
        ((normalize_scores sem).foldl (addSemanticResult (7/10)) []),
        x.doc.text ∉ bm.map (fun r => r.text) → x.bm25_score = 0 := by
      refine foldl_addBm_mem (3/10) (normalize_scores bm)
        (fun x => x.doc.text ∉ bm.map (fun r => r.text) → x.bm25_score = 0)
        ?_ ?_ _ ?_
      · intro x r _ hr ht hmem
        exact absurd (ht ▸ hbmtexts ▸ List.mem_map.mpr ⟨r, hr, rfl⟩) hmem
      · intro r hr hmem
        exact absurd (hbmtexts ▸ List.mem_map.mpr ⟨r, hr, rfl⟩) hmem
      · intro x hx _
        rcases base x hx with ⟨r, _, rfl⟩
        rfl
    subst hde
    exact ⟨hpos e he, fun h => hsem0 e he h, fun h => hbm0 e he h⟩
  · intro hnodup d hd
    rcases hybrid_search_mem sem bm k (7/10) (3/10) d hd with ⟨e, he, hde⟩
    have base := semState_shape (7/10) (normalize_scores sem)
    have heqn := foldl_addBm_eqn (7/10) (3/10) (normalize_scores bm)
      (hbmtexts ▸ hnodup)
      ((normalize_scores sem).foldl (addSemanticResult (7/10)) [])
      (by
        intro x hx
        rcases base x hx with ⟨r, _, rfl⟩
        simp only
        ring)
      (by
        intro x hx _
        rcases base x hx with ⟨r, _, rfl⟩
        rfl)
      e he
    subst hde
    exact heqn

/-- Witness for C7 on a single keyword-only hit: its fused scores satisfy the
weighted-sum equation. -/
theorem C7_fusion_invariants_witness :
    ({ text := "x", score := 2, normalized_score := 1, hybrid_score := 3/10,
       semantic_score := 0, bm25_score := 1 } : HDoc).hybrid_score =
      ({ text := "x", score := 2, normalized_score := 1, hybrid_score := 3/10,
         semantic_score := 0, bm25_score := 1 } : HDoc).semantic_score * (7/10) +
      ({ text := "x", score := 2, normalized_score := 1, hybrid_score := 3/10,
         semantic_score := 0, bm25_score := 1 } : HDoc).bm25_score * (3/10) := by
  have hh : hybrid_search [] [⟨"x", 2, 0⟩] 6 (7/10) (3/10) =
      [{ text := "x", score := 2, normalized_score := 1, hybrid_score := 3/10,
         semantic_score := 0, bm25_score := 1 }] := by
    norm_num [hybrid_search, normalize_scores, listMax, listMin, addBm25Result,
      List.insertionSort, List.orderedInsert]
  exact (C7_fusion_invariants [] [⟨"x", 2, 0⟩] 6).2 (by simp) _
    (by rw [hh]; exact List.mem_singleton_self _)

/-- Counterexample to C7 as stated: when the keyword retriever returns two
hits with the same text (raw scores 3 and 2 around a middle hit), the dict
merge accumulates both weighted keyword contributions into `hybrid_score`
(`0.3 + 0.15 = 0.45`) while `bm25_score` keeps only the last normalized value
(`0.5`), so `hybrid_score ≠ semantic_score·0.7 + bm25_score·0.3 = 0.15`. -/
theorem C7_counterexample :
    hybrid_search [] [⟨"x", 3, 0⟩, ⟨"y", 1, 0⟩, ⟨"x", 2, 0⟩] 6 (7/10) (3/10) =
      [{ text := "x", score := 3, normalized_score := 1, hybrid_score := 9/20,
         semantic_score := 0, bm25_score := 1/2 },
       { text := "y", score := 1, normalized_score := 0, hybrid_score := 0,
         semantic_score := 0, bm25_score := 0 }] ∧
    ¬ ((9/20 : ℚ) = 0 * (7/10) + (1/2) * (3/10)) := by
  constructor
  · norm_num [hybrid_search, normalize_scores, listMax, listMin, addBm25Result,
      List.insertionSort, List.orderedInsert, max_def, min_def]
    simp only [if_neg (show ¬ (("y" : String) = "x") from by decide)]
    norm_num
  · norm_num

/-! ## C5: the 30-second inactivity timeout -/

/-- C5 (amended).  For every chunk source whose chunk 1 arrives within 30
seconds of the stream start and whose chunk 2 arrives more than 30 seconds
after chunk 1 — whatever chunks the source would produce afterwards — the
driver stops while handling chunk 2: only chunk 1 is yielded as a token and
`stream_error = stream_timeout`, but the accumulated answer is chunk 1
followed by chunk 2 — the late chunk is appended before the timeout check,
and nothing after it is consumed. -/
theorem C5_stream_timeout (c1 c2 : String) (t0 t1 t2 : ℚ)
    (rest : List (String × ℚ))
    (h1 : c1 ≠ "") (h2 : c2 ≠ "")
    (ht1 : t1 - t0 ≤ 30) (ht2 : 30 < t2 - t1) :
    streamLoop 10000 (initState t0) ((c1, t1) :: (c2, t2) :: rest) =
      { bot_response := c1 ++ c2, chunk_count := 2,
        stream_error := some "stream_timeout", last_chunk_time := t1,
        yielded := [c1] } := by
  have hn1 : ¬ (t1 - t0 > 30) := not_lt.mpr ht1
  simp only [streamLoop, initState, if_neg h1, if_neg h2]
  rw [if_neg (by show ¬ (0 + 1 > 10000); omega), if_neg (by simpa using hn1),
    if_neg (by show ¬ (0 + 1 + 1 > 10000); omega), if_pos (by simpa using ht2)]
  simp [String.empty_append]

/-- Witness for C5 on chunks `"a"` at time 0 and `"b"` at time 31 with an
empty tail. -/
theorem C5_stream_timeout_witness :
    (streamLoop 10000 (initState 0) [("a", 0), ("b", 31)]).stream_error =
      some "stream_timeout" := by
  rw [C5_stream_timeout "a" "b" 0 0 31 [] (by decide) (by decide)
    (by norm_num) (by norm_num)]

/-- Counterexample to C5 as stated: with chunk `"a"` at time 0 and chunk `"b"`
31 seconds later the accumulated answer is `"ab"`, not chunk 1's text
`"a"`. -/
theorem C5_counterexample :
    (streamLoop 10000 (initState 0) [("a", 0), ("b", 31)]).bot_response = "ab" ∧
    ("ab" : String) ≠ "a" := by
  constructor
  · simp only [streamLoop, initState]
    rw [if_neg (by decide), if_neg (by show ¬ (0 + 1 > 10000); omega),
      if_neg (by norm_num), if_neg (by decide),
      if_neg (by show ¬ (0 + 1 + 1 > 10000); omega), if_pos (by norm_num)]
    decide
  · decide

end Adal
